import Mathlib

/-!
Shallow embedding of the sudoku-manager repository (src/sudoku_manager/cell.py,
src/sudoku_manager/area.py, src/sudoku_manager/sudoku.py).

Modelling conventions:
* Python cell objects are records; a Sudoku instance refers to them by their
  position in the construction-order list `cells`, so `empty_cells` and the
  history logs store indices instead of object references.
* Python sets of candidate digits are modelled as strictly ascending lists.
  In CPython, a set of small integers occupies hash slots equal to the values,
  so iteration (`list(values)`) is ascending and `set.pop` removes the
  smallest remaining element; repeated pops on the stored set continue in
  ascending order because the scan finger only moves forward.  Hence `pop`
  is modelled as taking the head of the ascending list.
* Wall-clock time (`perf_counter`) is outside the embedding.  The attribute
  `time` keeps only its presence (`Option Nat`, value abstracted to 0), and
  the time-limit test `time_limit and float(time_limit) <= elapsed` is
  modelled by a boolean `tl` (truthiness of `time_limit`) together with an
  oracle `tu : Nat -> Bool` giving the outcome of the comparison at each
  loop iteration.
* The global entropy consumed by `random.choice` is modelled by a stream
  `rng : List Nat`; `choice(lst)` takes the next stream element modulo the
  list length.
* The while-loop of `solve` is fuel-indexed: `SolveOutcome.outOfFuel` means
  the loop was still running after `fuel` iterations.
-/

namespace SudokuManager

/-- Input values a grid cell can carry: `null` (Python `None`), an integer, or
a value on which `int()` raises (`TypeError`/`ValueError`), such as a dict.
(Inputs that `int()` converts to a different number, e.g. numeric strings or
floats, do not occur in this repository and are not modelled.) -/
inductive Seed where
  | null
  | int (n : Int)
  | nonNumeric
deriving DecidableEq

/-- Normalization performed by `Cell.__init__`: try `int(data)` (a no-op on
integers, a caught failure on `null`/non-numeric input), then replace `data`
by `None` unless it lies in `Cell.NUMBERS = {1,...,9}`. -/
def seedData : Seed → Option Nat
  | .null => none
  | .nonNumeric => none
  | .int n => if 1 ≤ n ∧ n ≤ 9 then some n.toNat else none

/-- The `Cell` class: coordinates plus the mutable `data` field. -/
structure Cell where
  row : Nat
  column : Nat
  square : Nat
  data : Option Nat
deriving DecidableEq

/-- `Sudoku.generate_cells`: one record per grid entry, in row-major
construction order, with `square = (x // 3) * 3 + (y // 3)`. -/
def generate_cells (grid : List (List Seed)) : List Cell :=
  grid.enum.flatMap fun xr =>
    xr.2.enum.map fun yv =>
      { row := xr.1
        column := yv.1
        square := (xr.1 / 3) * 3 + yv.1 / 3
        data := seedData yv.2 }

/-- Read the `data` field of the cell at index `i` (out of range reads give
`none`; they never occur on reachable states). -/
def getData : List Cell → Nat → Option Nat
  | [], _ => none
  | c :: _, 0 => c.data
  | _ :: cs, n + 1 => getData cs n

/-- Write the `data` field of the cell at index `i` (out of range writes are
no-ops; they never occur on reachable states). -/
def setData : List Cell → Nat → Option Nat → List Cell
  | [], _, _ => []
  | c :: cs, 0, v => { c with data := v } :: cs
  | c :: cs, n + 1, v => c :: setData cs n v

/-- Two cells share an `Area` iff they agree on `row`, `column`, or `square`;
this is exactly membership in one of the three areas of a cell, since
`generate_areas` groups cells by each of these attributes. -/
def sameArea (a b : Cell) : Bool :=
  a.row == b.row || a.column == b.column || a.square == b.square

/-- `Sudoku.get_available_cell_values`: `Cell.NUMBERS` minus the
`taken_numbers` of the three areas of the cell, i.e. the ascending list of
digits not present in any cell sharing a row, column, or square with cell
`i`. -/
def get_available_cell_values (cells : List Cell) (i : Nat) : List Nat :=
  match cells.get? i with
  | none => []
  | some c =>
    (List.range' 1 9).filter fun v =>
      cells.all fun d => !(sameArea c d && d.data == some v)

/-- The initial `empty_cells` list: indices of cells whose `data is None`,
in construction order. -/
def empty_cells_init (cells : List Cell) : List Nat :=
  (List.range cells.length).filter fun i => (getData cells i).isNone

/-- The two entries of `Sudoku.ACTIONS`. -/
inductive Action where
  | write
  | undo
deriving DecidableEq

/-- The three strings ever assigned to `self.status`. -/
inductive Status where
  | solved
  | time_limit_exceeded
  | no_valid_solution
deriving DecidableEq

/-- An entry of `self.history`: `(action, cell, data, other_available_values)`
with `action` always `"write"`. -/
structure HistEntry where
  action : Action
  cell : Nat
  data : Nat
  rem : List Nat
deriving DecidableEq

/-- An entry of `self.complete_history` (the `data` slot holds the current
cell value, which for undo entries is an `Option`). -/
structure LogEntry where
  action : Action
  cell : Nat
  data : Option Nat
  rem : List Nat
deriving DecidableEq

/-- The mutable attributes of a `Sudoku` instance.  `history` and
`complete_history` are stored most-recent-first (Python appends to the end
and pops from the end).  `status` and `time` are `none` until `solve`
assigns them (Python: the attributes do not exist before the first call).
`moves` is an `Int` because `undo` decrements it even when the history is
already empty, so it can become negative. -/
structure SudokuState where
  cells : List Cell
  empty_cells : List Nat
  history : List HistEntry
  complete_history : List LogEntry
  moves : Int
  total_moves : Nat
  required_moves : Nat
  status : Option Status
  time : Option Nat
  solved_grid : Option (List (List (Option Nat)))
deriving DecidableEq

/-- The state built by `Sudoku.__init__` after the shape check passed. -/
def initState (grid : List (List Seed)) : SudokuState :=
  let cells := generate_cells grid
  let ec := empty_cells_init cells
  { cells := cells
    empty_cells := ec
    history := []
    complete_history := []
    moves := 0
    total_moves := 0
    required_moves := ec.length
    status := none
    time := none
    solved_grid := none }

/-- `Sudoku.shape_is_valid`: when the grid has exactly 9 rows it checks every
row length; when the row count differs from 9 the loop is skipped and the
function falls through to `return True`. -/
def shape_is_valid (grid : List (List Seed)) : Bool :=
  if grid.length = 9 then grid.all fun row => row.length == 9 else true

/-- `Sudoku.__init__`: raise `IndexError` iff `shape_is_valid` is false,
otherwise build the instance. -/
def sudoku_init (grid : List (List Seed)) : Except String SudokuState :=
  if shape_is_valid grid then .ok (initState grid)
  else .error "The grid argument must be a 9x9 list"

/-- Whether construction succeeded (no `IndexError`). -/
def initAccepted (grid : List (List Seed)) : Bool :=
  match sudoku_init grid with
  | .ok _ => true
  | .error _ => false

/-- `Sudoku.solved` property: `self.moves == self.required_moves`. -/
def solved (s : SudokuState) : Bool := s.moves == (s.required_moves : Int)

/-- `Sudoku.write_and_log`: increment both move counters, set the cell value,
and push a write entry on both logs. -/
def write_and_log (s : SudokuState) (i : Nat) (v : Nat) (others : List Nat) :
    SudokuState :=
  { s with
    moves := s.moves + 1
    total_moves := s.total_moves + 1
    cells := setData s.cells i (some v)
    history := ⟨.write, i, v, others⟩ :: s.history
    complete_history := ⟨.write, i, some v, others⟩ :: s.complete_history }

/-- Body of `Sudoku.undo`, structurally recursive on the history list (the
second argument is always the `history` field of the first).  Python first
decrements `moves`, then pops the last history entry; if no entry exists it
returns `True`.  With an empty remaining-candidate set it clears the cell,
reinserts it at the front of `empty_cells` and recurses, DISCARDING the
recursive result (the Python call `self.undo()` ignores the return value, so
the function falls through and returns `None`, modelled as `false`).
Otherwise it pops the next candidate (head of the ascending list) and
rewrites the cell via `write_and_log`. -/
def undoGo : SudokuState → List HistEntry → SudokuState × Bool
  | s, [] => ({ s with moves := s.moves - 1 }, true)
  | s, e :: rest =>
    let s1 := { s with
      moves := s.moves - 1
      history := rest
      complete_history :=
        ⟨.undo, e.cell, getData s.cells e.cell, e.rem⟩ :: s.complete_history }
    match e.rem with
    | [] =>
      let s2 := { s1 with
        cells := setData s1.cells e.cell none
        empty_cells := e.cell :: s1.empty_cells }
      ((undoGo s2 rest).1, false)
    | v :: restAvail => (write_and_log s1 e.cell v restAvail, false)

/-- `Sudoku.undo`. -/
def undo (s : SudokuState) : SudokuState × Bool := undoGo s s.history

/-- `random.choice` on a list of length `n`: consume one stream element and
reduce it modulo `n`. -/
def choiceIdx (rng : List Nat) (n : Nat) : Nat × List Nat :=
  match rng with
  | [] => (0, [])
  | r :: rest => (r % n, rest)

/-- Result of running the `solve` loop for a bounded number of iterations. -/
inductive SolveOutcome where
  | finished (s : SudokuState)
  | outOfFuel (s : SudokuState)
  | indexError (s : SudokuState)
deriving DecidableEq

/-- The `while not self.solved` loop of `Sudoku.solve`, one fuel unit per
iteration.  `iter` counts iterations for the time oracle.  An empty
`empty_cells` list while unsolved would raise `IndexError` at
`self.empty_cells[0]`. -/
def solveLoop (randomly tl : Bool) (tu : Nat → Bool) :
    List Nat → Nat → Nat → SudokuState → SolveOutcome
  | _, _, 0, s => .outOfFuel s
  | rng, iter, fuel + 1, s =>
    if solved s then .finished s
    else if tl && tu iter then
      .finished { s with status := some .time_limit_exceeded }
    else
      match s.empty_cells with
      | [] => .indexError s
      | c :: restEmpty =>
        match get_available_cell_values s.cells c with
        | [] =>
          match undo s with
          | (s1, true) => .finished { s1 with status := some .no_valid_solution }
          | (s1, false) => solveLoop randomly tl tu rng (iter + 1) fuel s1
        | v :: restVals =>
          let sPopped := { s with empty_cells := restEmpty }
          if randomly then
            let lv := v :: restVals
            let jr := choiceIdx rng lv.length
            let value := lv.getD jr.1 0
            solveLoop randomly tl tu jr.2 (iter + 1) fuel
              (write_and_log sPopped c value (lv.erase value))
          else
            solveLoop randomly tl tu rng (iter + 1) fuel
              (write_and_log sPopped c v restVals)

/-- The snapshot `[[cell.data for cell in self.cells[i:i+9]] for i in
range(0, 81, 9)]`. -/
def solved_grid_of (cells : List Cell) : List (List (Option Nat)) :=
  (List.range' 0 9 9).map fun i => ((cells.drop i).take 9).map Cell.data

/-- The code after the loop of `Sudoku.solve`: record the elapsed time, then
UNCONDITIONALLY set `status = "solved"` and snapshot `solved_grid` (this runs
on every loop exit, including the `break`s that just stored a different
status). -/
def finishTail (s : SudokuState) : SudokuState :=
  { s with
    time := some 0
    status := some .solved
    solved_grid := some (solved_grid_of s.cells) }

/-- `Sudoku.solve`: start the timer (`self.time = perf_counter()` makes the
attribute exist), run the loop, and on loop exit run the tail code.  An
`IndexError` escapes before the tail runs; `outOfFuel` means the loop was
still running. -/
def solve (randomly tl : Bool) (tu : Nat → Bool) (rng : List Nat)
    (fuel : Nat) (s : SudokuState) : SolveOutcome :=
  match solveLoop randomly tl tu rng 0 fuel { s with time := some 0 } with
  | .finished s1 => .finished (finishTail s1)
  | r => r

/-- The `Sudoku.metrics` property.  Reading it before any `solve` call raises
`AttributeError` (neither `self.status` nor `self.time` exists), modelled as
`none`. -/
structure Metrics where
  solved : Bool
  status : Status
  time : Nat
  required_moves : Nat
  total_moves : Nat
deriving DecidableEq

/-- `Sudoku.metrics`: total only once `status` and `time` exist. -/
def metrics (s : SudokuState) : Option Metrics :=
  match s.status, s.time with
  | some st, some t => some ⟨solved s, st, t, s.required_moves, s.total_moves⟩
  | _, _ => none

/-- Project the state out of an outcome. -/
def outState : SolveOutcome → SudokuState
  | .finished s => s
  | .outOfFuel s => s
  | .indexError s => s

/-- Whether the loop exited normally (solved condition or a `break`). -/
def isFinished : SolveOutcome → Bool
  | .finished _ => true
  | _ => false

/-- Boolean check on the final state of a finished run. -/
def onFinished (o : SolveOutcome) (p : SudokuState → Bool) : Bool :=
  match o with
  | .finished s => p s
  | _ => false

/-- Boolean check on the state of a still-running loop. -/
def onOutOfFuel (o : SolveOutcome) (p : SudokuState → Bool) : Bool :=
  match o with
  | .outOfFuel s => p s
  | _ => false

/-- Well-formed 9x9 shape in the intended sense of the spec: exactly 9 rows,
each of length 9. -/
def gridShapeB (grid : List (List Seed)) : Bool :=
  grid.length == 9 && grid.all fun row => row.length == 9

/-- Consistency of one ordered pair of cells: if they share an area and the
first one is filled, their values differ. -/
def CellOK (c d : Cell) : Prop :=
  sameArea c d = true → c.data.isSome = true → c.data ≠ d.data

instance : DecidableRel CellOK := fun c d => by
  unfold CellOK; infer_instance

/-- A cell list is consistent when no two distinct cells sharing an area hold
the same digit. -/
def consistent (cells : List Cell) : Prop := List.Pairwise CellOK cells

instance (cells : List Cell) : Decidable (consistent cells) :=
  inferInstanceAs (Decidable (List.Pairwise CellOK cells))

/-- Each of the 27 areas (cells grouped by `row`, by `column` and by `square`
attribute, exactly as `generate_areas` groups them) contains each digit 1-9
exactly once. -/
def validAreas (cells : List Cell) : Bool :=
  (List.range 9).all fun a =>
    (List.range' 1 9).all fun v =>
      ((cells.filter fun c => c.row == a).map Cell.data).count (some v) == 1 &&
      ((cells.filter fun c => c.column == a).map Cell.data).count (some v) == 1 &&
      ((cells.filter fun c => c.square == a).map Cell.data).count (some v) == 1

/-- Helper to write a fully numeric grid row. -/
def nrow (a b c d e f g h i : Int) : List Seed :=
  [.int a, .int b, .int c, .int d, .int e, .int f, .int g, .int h, .int i]

/-- A row of nines (used as irrelevant filler in counterexample grids). -/
def nines : List Seed := nrow 9 9 9 9 9 9 9 9 9

/-- A complete valid grid: value at (r, c) is `(3*(r%3) + r/3 + c) % 9 + 1`. -/
def fullGrid : List (List Seed) :=
  [nrow 1 2 3 4 5 6 7 8 9,
   nrow 4 5 6 7 8 9 1 2 3,
   nrow 7 8 9 1 2 3 4 5 6,
   nrow 2 3 4 5 6 7 8 9 1,
   nrow 5 6 7 8 9 1 2 3 4,
   nrow 8 9 1 2 3 4 5 6 7,
   nrow 3 4 5 6 7 8 9 1 2,
   nrow 6 7 8 9 1 2 3 4 5,
   nrow 9 1 2 3 4 5 6 7 8]

/-- `fullGrid` with the last cell removed: one empty cell, one candidate. -/
def oneHoleGrid : List (List Seed) :=
  [nrow 1 2 3 4 5 6 7 8 9,
   nrow 4 5 6 7 8 9 1 2 3,
   nrow 7 8 9 1 2 3 4 5 6,
   nrow 2 3 4 5 6 7 8 9 1,
   nrow 5 6 7 8 9 1 2 3 4,
   nrow 8 9 1 2 3 4 5 6 7,
   nrow 3 4 5 6 7 8 9 1 2,
   nrow 6 7 8 9 1 2 3 4 5,
   [.int 9, .int 1, .int 2, .int 3, .int 4, .int 5, .int 6, .int 7, .null]]

/-- `oneHoleGrid` with cell (0,0) changed to 2, duplicating the 2 at (0,1):
the starting grid is inconsistent, yet the single empty cell (8,8) still has
the candidate 8, so solve completes "solved" while row 0 keeps two 2s. -/
def dupGrid : List (List Seed) :=
  [nrow 2 2 3 4 5 6 7 8 9,
   nrow 4 5 6 7 8 9 1 2 3,
   nrow 7 8 9 1 2 3 4 5 6,
   nrow 2 3 4 5 6 7 8 9 1,
   nrow 5 6 7 8 9 1 2 3 4,
   nrow 8 9 1 2 3 4 5 6 7,
   nrow 3 4 5 6 7 8 9 1 2,
   nrow 6 7 8 9 1 2 3 4 5,
   [.int 9, .int 1, .int 2, .int 3, .int 4, .int 5, .int 6, .int 7, .null]]

/-- Unsolvable grid whose first (and only) empty cell (0,8) has no candidate:
row 0 supplies 1-8 and every other cell is 9. -/
def stuckGrid : List (List Seed) :=
  [[.int 1, .int 2, .int 3, .int 4, .int 5, .int 6, .int 7, .int 8, .null],
   nines, nines, nines, nines, nines, nines, nines, nines]

/-- Unsolvable grid on which the exhaustion signal of `undo` is swallowed:
cell (0,0) has the single candidate 1; after writing it, cell (0,1) has no
candidate, so `undo` cascades through the lone zero-candidate history entry,
reaches the empty history, and the inner `True` is discarded rather than
returned, so the loop never stops. -/
def swallowGrid : List (List Seed) :=
  [[.null, .null, .int 3, .int 4, .int 5, .int 6, .int 7, .int 8, .int 9],
   nrow 2 9 9 9 9 9 9 9 9,
   nines, nines, nines, nines, nines, nines, nines]

/-- Grid whose first empty cell (0,0) has the two candidates 1 and 2; the
solver writes 1 (the smallest), not 2 (the last). -/
def twoChoiceGrid : List (List Seed) :=
  [[.null, .int 3, .int 4, .int 5, .int 6, .int 7, .int 8, .int 9, .null],
   nines, nines, nines, nines, nines, nines, nines, nines]

/-- Time oracle that never reports expiry. -/
def noTime : Nat → Bool := fun _ => false

/-- Replay a history (most-recent-first) onto an initial cell list: the cell
values determined by the initial grid together with the currently applied
writes. -/
def applyHist (init : List Cell) : List HistEntry → List Cell
  | [] => init
  | e :: rest => setData (applyHist init rest) e.cell (some e.data)

/-- The coordinate triples of a cell list (writes never change them). -/
def stripCoords (cells : List Cell) : List (Nat × Nat × Nat) :=
  cells.map fun c => (c.row, c.column, c.square)

/-- Coordinate triples of a well-shaped 9x9 grid, row-major. -/
def stdCoords : List (Nat × Nat × Nat) :=
  (List.range 81).map fun i => (i / 9, i % 9, (i / 9 / 3) * 3 + i % 9 / 3)

/-- A sequence of `write_and_log` calls, each logging an empty
remaining-candidate set. -/
def writeSeq (s : SudokuState) : List (Nat × Nat) → SudokuState
  | [] => s
  | (i, v) :: rest => writeSeq (write_and_log s i v []) rest

/-- Apply `undo` a given number of times. -/
def undoSeq (s : SudokuState) : Nat → SudokuState
  | 0 => s
  | n + 1 => undoSeq (undo s).1 n

/-- Cell-array effect of a write sequence. -/
def writeCells (cells : List Cell) : List (Nat × Nat) → List Cell
  | [] => cells
  | (i, v) :: rest => writeCells (setData cells i (some v)) rest

/-- Cell-array effect of clearing a sequence of cells. -/
def clearCells (cells : List Cell) : List Nat → List Cell
  | [] => cells
  | i :: rest => clearCells (setData cells i none) rest

/-- A minimal puzzle state: one empty cell, nothing written yet. -/
def oneCellState : SudokuState :=
  { cells := [⟨0, 0, 0, none⟩]
    empty_cells := [0]
    history := []
    complete_history := []
    moves := 0
    total_moves := 0
    required_moves := 1
    status := none
    time := none
    solved_grid := none }

/-- A minimal puzzle state with two empty cells. -/
def twoCellState : SudokuState :=
  { cells := [⟨0, 0, 0, none⟩, ⟨0, 1, 0, none⟩]
    empty_cells := [0, 1]
    history := []
    complete_history := []
    moves := 0
    total_moves := 0
    required_moves := 2
    status := none
    time := none
    solved_grid := none }

/-- The family of states the `solve` loop keeps revisiting on `swallowGrid`:
the grid is back to its initial values, both cells are queued again, the
history is empty, and only `moves` (ever more negative), `total_moves` and
the audit log distinguish the revisits. -/
def swallowState (m : Int) (tm : Nat) (ch : List LogEntry) : SudokuState :=
  { cells := generate_cells swallowGrid
    empty_cells := [0, 1]
    history := []
    complete_history := ch
    moves := m
    total_moves := tm
    required_moves := 2
    status := none
    time := some 0
    solved_grid := none }

/-- The state midway through a revisit cycle on `swallowGrid`: cell 0 holds
1, whose history entry logged no remaining candidate. -/
def swallowMid (m : Int) (tm : Nat) (ch : List LogEntry) : SudokuState :=
  { cells := setData (generate_cells swallowGrid) 0 (some 1)
    empty_cells := [1]
    history := [⟨.write, 0, 1, []⟩]
    complete_history := ⟨.write, 0, some 1, []⟩ :: ch
    moves := m + 1
    total_moves := tm + 1
    required_moves := 2
    status := none
    time := some 0
    solved_grid := none }

/-- Invariant tying every state reachable by the solver to the cell list
`init` built at construction time: the cells are the initial ones with the
logged writes applied; the history writes distinct, initially empty cells,
and each logged value (written or remaining) was available for its cell in
the grid as it stood before that entry; `empty_cells` holds exactly the
initially empty cells not currently written; `moves` never exceeds the
history length (undo can push it below); `required_moves` is the initial
empty count. -/
structure Inv (init : List Cell) (s : SudokuState) : Prop where
  cellsEq : s.cells = applyHist init s.history
  histNodup : (s.history.map HistEntry.cell).Nodup
  histMem : ∀ e ∈ s.history, e.cell ∈ empty_cells_init init
  avail : ∀ pre e post, s.history = pre ++ e :: post →
    e.data ∈ get_available_cell_values (applyHist init post) e.cell ∧
    ∀ w ∈ e.rem, w ∈ get_available_cell_values (applyHist init post) e.cell
  ecNodup : s.empty_cells.Nodup
  ecMem : ∀ i, i ∈ s.empty_cells ↔
    i ∈ empty_cells_init init ∧ i ∉ s.history.map HistEntry.cell
  movesLe : s.moves ≤ (s.history.length : Int)
  reqEq : s.required_moves = (empty_cells_init init).length

/-! ### Basic lemmas about the cell array -/

theorem getData_eq_get? (cells : List Cell) (i : Nat) :
    getData cells i = match cells.get? i with
      | some c => c.data
      | none => none := by
  induction cells generalizing i with
  | nil => cases i <;> rfl
  | cons c cs ih =>
    cases i with
    | zero => rfl
    | succ n => simpa using ih n

theorem length_setData (cells : List Cell) (i : Nat) (v : Option Nat) :
    (setData cells i v).length = cells.length := by
  induction cells generalizing i with
  | nil => rfl
  | cons c cs ih =>
    cases i with
    | zero => rfl
    | succ n => simp [setData, ih]

theorem get?_setData (cells : List Cell) (i : Nat) (v : Option Nat) (j : Nat) :
    (setData cells i v).get? j =
      if j = i then (cells.get? j).map (fun c => { c with data := v })
      else cells.get? j := by
  induction cells generalizing i j with
  | nil => simp [setData]
  | cons c cs ih =>
    cases i with
    | zero =>
      cases j with
      | zero => simp [setData]
      | succ m => simp [setData]
    | succ n =>
      cases j with
      | zero => simp [setData]
      | succ m => simpa [setData, Nat.succ_inj] using ih n m

theorem getData_setData_ne (cells : List Cell) (i : Nat) (v : Option Nat)
    (j : Nat) (h : j ≠ i) : getData (setData cells i v) j = getData cells j := by
  rw [getData_eq_get?, getData_eq_get?, get?_setData, if_neg h]

theorem setData_eq_of_getData_none (cells : List Cell) (i : Nat)
    (h : getData cells i = none) : setData cells i none = cells := by
  induction cells generalizing i with
  | nil => rfl
  | cons c cs ih =>
    cases i with
    | zero =>
      have : c.data = none := h
      cases c
      simp_all [setData]
    | succ n => simp [setData, ih n h]

theorem setData_setData (cells : List Cell) (i : Nat) (u v : Option Nat) :
    setData (setData cells i u) i v = setData cells i v := by
  induction cells generalizing i with
  | nil => rfl
  | cons c cs ih =>
    cases i with
    | zero => rfl
    | succ n => simp [setData, ih]

theorem stripCoords_setData (cells : List Cell) (i : Nat) (v : Option Nat) :
    stripCoords (setData cells i v) = stripCoords cells := by
  induction cells generalizing i with
  | nil => rfl
  | cons c cs ih =>
    cases i with
    | zero => simp [setData, stripCoords]
    | succ n => simpa [setData, stripCoords] using ih n

/-! ### Lemmas about available values and cell construction -/

theorem sameArea_iff (a b : Cell) :
    sameArea a b = true ↔
      (a.row = b.row ∨ a.column = b.column ∨ a.square = b.square) := by
  simp [sameArea, or_assoc]

theorem avail_range {cells : List Cell} {i v : Nat}
    (h : v ∈ get_available_cell_values cells i) : 1 ≤ v ∧ v ≤ 9 := by
  unfold get_available_cell_values at h
  cases hc : cells.get? i with
  | none => rw [hc] at h; cases h
  | some c =>
    rw [hc] at h
    have := (List.mem_filter.1 h).1
    rw [List.mem_range'] at this
    omega

theorem avail_not_taken {cells : List Cell} {i v : Nat} {c d : Cell}
    (hc : cells.get? i = some c) (h : v ∈ get_available_cell_values cells i)
    (hd : d ∈ cells) (hsame : sameArea c d = true) : d.data ≠ some v := by
  unfold get_available_cell_values at h
  rw [hc] at h
  have hp := (List.mem_filter.1 h).2
  rw [List.all_eq_true] at hp
  have := hp d hd
  simp [hsame] at this
  simpa using this

theorem seedData_range (s : Seed) (v : Nat) (h : seedData s = some v) :
    1 ≤ v ∧ v ≤ 9 := by
  cases s with
  | null => cases h
  | nonNumeric => cases h
  | int n =>
    simp only [seedData] at h
    split at h
    · injection h with h
      omega
    · cases h

theorem generate_cells_data (grid : List (List Seed)) (c : Cell)
    (hc : c ∈ generate_cells grid) : ∃ s : Seed, c.data = seedData s := by
  unfold generate_cells at hc
  rw [List.mem_flatMap] at hc
  obtain ⟨xr, _, hc⟩ := hc
  rw [List.mem_map] at hc
  obtain ⟨yv, _, rfl⟩ := hc
  exact ⟨yv.2, rfl⟩

/-! ### Shape of finished solve runs -/

theorem solve_finished_shape {randomly tl : Bool} {tu : Nat → Bool}
    {rng : List Nat} {fuel : Nat} {s s1 : SudokuState}
    (h : solve randomly tl tu rng fuel s = .finished s1) :
    ∃ s2, solveLoop randomly tl tu rng 0 fuel { s with time := some 0 } =
        .finished s2 ∧ s1 = finishTail s2 := by
  unfold solve at h
  cases hl : solveLoop randomly tl tu rng 0 fuel { s with time := some 0 } with
  | finished s2 =>
    rw [hl] at h
    exact ⟨s2, rfl, by injection h with h; exact h.symm⟩
  | outOfFuel s2 => rw [hl] at h; exact (SolveOutcome.noConfusion h)
  | indexError s2 => rw [hl] at h; exact (SolveOutcome.noConfusion h)

theorem solved_of_moves_zero (s : SudokuState) (h : s.moves = 0) :
    solved s = decide (s.required_moves = 0) := by
  unfold solved
  rw [h]
  by_cases hr : s.required_moves = 0
  · simp [hr]
  · have hne : (0 : Int) ≠ (s.required_moves : Int) := by
      exact_mod_cast Ne.symm hr
    simp [hr, hne]

theorem empty_cells_init_nil (cells : List Cell)
    (h : cells.all (fun c => c.data.isSome) = true) :
    empty_cells_init cells = [] := by
  unfold empty_cells_init
  rw [List.filter_eq_nil_iff]
  intro i hi
  rw [List.mem_range] at hi
  rw [getData_eq_get?]
  cases hc : cells.get? i with
  | none =>
    rw [List.get?_eq_none] at hc
    omega
  | some c =>
    have hm : c ∈ cells := List.get?_mem hc
    have := (List.all_eq_true.1 h) c hm
    simp only []
    cases hd : c.data with
    | none => rw [hd] at this; cases this
    | some v => simp

/-! ### Claim C5 -/

/-- C5: the claim states that construction raises a shape error if and only
if the grid is not exactly 9 rows of length 9, so in particular every grid
with a row count other than 9 is rejected.  In the code, `shape_is_valid`
checks row lengths only inside the `len(grid) == 9` branch and otherwise
falls through to `return True`, so every grid whose row count differs from 9
is ACCEPTED: constructing from the empty grid succeeds. -/
theorem c5_wrong_row_count_accepted :
    initAccepted [] = true ∧ ([] : List (List Seed)).length ≠ 9 ∧
    (∀ grid : List (List Seed), grid.length ≠ 9 → initAccepted grid = true) := by
  refine ⟨by decide, by decide, ?_⟩
  intro grid h
  simp [initAccepted, sudoku_init, shape_is_valid, h]

theorem c5_wrong_row_count_accepted_witness :
    initAccepted [nines] = true :=
  c5_wrong_row_count_accepted.2.2 [nines] (by decide)

/-! ### Claim C8 -/

/-- C8: `Cell.__init__` normalizes every seed outside the digits 1-9
(including non-numeric input and null) to an empty value, and every cell
built by `generate_cells` holds either none or a digit in 1-9. -/
theorem c8_cell_normalization :
    (∀ n : Int, (n < 1 ∨ 9 < n) → seedData (.int n) = none) ∧
    seedData .null = none ∧
    seedData .nonNumeric = none ∧
    (∀ s : Seed, seedData s = none ∨
      ∃ v, seedData s = some v ∧ 1 ≤ v ∧ v ≤ 9) ∧
    (∀ (grid : List (List Seed)) (c : Cell), c ∈ generate_cells grid →
      c.data = none ∨ ∃ v, c.data = some v ∧ 1 ≤ v ∧ v ≤ 9) := by
  have hrange : ∀ s : Seed, seedData s = none ∨
      ∃ v, seedData s = some v ∧ 1 ≤ v ∧ v ≤ 9 := by
    intro s
    cases hv : seedData s with
    | none => exact Or.inl rfl
    | some v => exact Or.inr ⟨v, rfl, seedData_range s v hv⟩
  refine ⟨?_, rfl, rfl, hrange, ?_⟩
  · intro n hn
    simp only [seedData]
    rw [if_neg (by omega)]
  · intro grid c hc
    obtain ⟨s, hs⟩ := generate_cells_data grid c hc
    rw [hs]
    exact hrange s

theorem c8_cell_normalization_witness :
    seedData (.int 15) = none ∧ seedData (.int 0) = none ∧
    (seedData (.int 5) = none ∨
      ∃ v, seedData (.int 5) = some v ∧ 1 ≤ v ∧ v ≤ 9) :=
  ⟨c8_cell_normalization.1 15 (by decide),
   c8_cell_normalization.1 0 (by decide),
   c8_cell_normalization.2.2.2.1 (.int 5)⟩

/-! ### Claim C2 -/

/-- C2: the claim states that after `solve` returns, `status` faithfully
reports the exit path (time limit, exhausted backtracking, or solved).  In
the code the tail after the loop runs on EVERY loop exit and unconditionally
overwrites `status` with "solved", so every finished call reports solved: on
the unsolvable `stuckGrid`, the loop exits through the no_valid_solution
break, yet the recorded status is solved while the puzzle is not solved and
moves is -1. -/
theorem c2_status_always_overwritten_to_solved :
    (∀ (randomly tl : Bool) (tu : Nat → Bool) (rng : List Nat) (fuel : Nat)
      (s s1 : SudokuState), solve randomly tl tu rng fuel s = .finished s1 →
      s1.status = some .solved) ∧
    onFinished (solve false false noTime [] 3 (initState stuckGrid))
      (fun s1 => s1.status == some .solved && !(solved s1) && s1.moves == -1) =
      true := by
  constructor
  · intro randomly tl tu rng fuel s s1 h
    obtain ⟨s2, _, rfl⟩ := solve_finished_shape h
    rfl
  · decide

theorem c2_status_always_overwritten_to_solved_witness :
    (outState (solve false false noTime [] 3 (initState stuckGrid))).status =
      some .solved :=
  c2_status_always_overwritten_to_solved.1 false false noTime [] 3
    (initState stuckGrid)
    (outState (solve false false noTime [] 3 (initState stuckGrid))) rfl

/-! ### Claim C10 -/

/-- C10: on a freshly constructed puzzle the metrics property is unreadable
(the status and time attributes do not exist until solve assigns them) even
though the solved property is already well-defined; after any finished solve
call the metrics are total. -/
theorem c10_metrics_partial_before_solve :
    ∀ grid : List (List Seed),
      metrics (initState grid) = none ∧
      (initState grid).status = none ∧
      (initState grid).time = none ∧
      solved (initState grid) = decide ((initState grid).required_moves = 0) ∧
      ∀ (randomly tl : Bool) (tu : Nat → Bool) (rng : List Nat) (fuel : Nat)
        (s1 : SudokuState),
        solve randomly tl tu rng fuel (initState grid) = .finished s1 →
        (metrics s1).isSome = true := by
  intro grid
  refine ⟨rfl, rfl, rfl, solved_of_moves_zero _ rfl, ?_⟩
  intro randomly tl tu rng fuel s1 h
  obtain ⟨s2, _, rfl⟩ := solve_finished_shape h
  rfl

theorem c10_metrics_partial_before_solve_witness :
    metrics (initState fullGrid) = none ∧
    (metrics (outState (solve false false noTime [] 1 (initState fullGrid)))).isSome
      = true :=
  ⟨(c10_metrics_partial_before_solve fullGrid).1,
   (c10_metrics_partial_before_solve fullGrid).2.2.2.2 false false noTime [] 1
     (outState (solve false false noTime [] 1 (initState fullGrid))) rfl⟩

/-! ### Claim C9 -/

/-- C9: for every fully populated valid grid, the constructed puzzle has
`required_moves = 0`, the solved property is true before solve is called,
and solve immediately finishes with status solved, `total_moves = 0` and the
cells unchanged. -/
theorem c9_full_grid_immediately_solved :
    ∀ grid : List (List Seed),
      gridShapeB grid = true →
      consistent (generate_cells grid) →
      (generate_cells grid).all (fun c => c.data.isSome) = true →
      (initState grid).required_moves = 0 ∧
      solved (initState grid) = true ∧
      ∀ (randomly tl : Bool) (tu : Nat → Bool) (rng : List Nat) (fuel : Nat),
        solve randomly tl tu rng (fuel + 1) (initState grid) =
          .finished (finishTail { initState grid with time := some 0 }) ∧
        (finishTail { initState grid with time := some 0 }).status =
          some .solved ∧
        (finishTail { initState grid with time := some 0 }).total_moves = 0 ∧
        (finishTail { initState grid with time := some 0 }).cells =
          (initState grid).cells := by
  intro grid _ _ hfull
  have hreq : (initState grid).required_moves = 0 := by
    show (empty_cells_init (generate_cells grid)).length = 0
    rw [empty_cells_init_nil _ hfull]
    rfl
  have hsol : solved (initState grid) = true := by
    rw [solved_of_moves_zero _ rfl, hreq]
    rfl
  refine ⟨hreq, hsol, ?_⟩
  intro randomly tl tu rng fuel
  have hsol0 : solved { initState grid with time := some 0 } = true := hsol
  have hloop : solveLoop randomly tl tu rng 0 (fuel + 1)
      { initState grid with time := some 0 } =
      .finished { initState grid with time := some 0 } := by
    simp only [solveLoop]
    rw [if_pos hsol0]
  refine ⟨?_, rfl, rfl, rfl⟩
  unfold solve
  rw [hloop]

theorem c9_full_grid_immediately_solved_witness :
    (initState fullGrid).required_moves = 0 ∧
    solved (initState fullGrid) = true ∧
    solve false false noTime [] 1 (initState fullGrid) =
      .finished (finishTail { initState fullGrid with time := some 0 }) :=
  ⟨(c9_full_grid_immediately_solved fullGrid (by decide) (by decide)
      (by decide)).1,
   (c9_full_grid_immediately_solved fullGrid (by decide) (by decide)
      (by decide)).2.1,
   ((c9_full_grid_immediately_solved fullGrid (by decide) (by decide)
      (by decide)).2.2 false false noTime [] 0).1⟩

/-! ### Claim C4 lemmas -/

theorem writeSeq_fields (ws : List (Nat × Nat)) :
    ∀ s : SudokuState,
      (writeSeq s ws).cells = writeCells s.cells ws ∧
      (writeSeq s ws).history =
        (ws.map fun iv => (⟨.write, iv.1, iv.2, []⟩ : HistEntry)).reverse ++
          s.history ∧
      (writeSeq s ws).moves = s.moves + ws.length := by
  induction ws with
  | nil => intro s; exact ⟨rfl, by simp [writeSeq], by simp [writeSeq]⟩
  | cons iv rest ih =>
    intro s
    obtain ⟨i, v⟩ := iv
    have hstep : writeSeq s ((i, v) :: rest) =
        writeSeq (write_and_log s i v []) rest := rfl
    obtain ⟨h1, h2, h3⟩ := ih (write_and_log s i v [])
    refine ⟨?_, ?_, ?_⟩
    · rw [hstep, h1]; rfl
    · rw [hstep, h2]
      simp [write_and_log, List.append_assoc]
    · rw [hstep, h3]
      show (write_and_log s i v []).moves + (rest.length : Int) = _
      simp [write_and_log]
      omega

theorem undoGo_all_empty_rem (l : List HistEntry) :
    ∀ s : SudokuState, s.history = l → (∀ e ∈ l, e.rem = []) →
      (undoGo s l).1.cells = clearCells s.cells (l.map HistEntry.cell) ∧
      (undoGo s l).1.moves = s.moves - (l.length + 1) ∧
      (undoGo s l).1.history = [] := by
  induction l with
  | nil =>
    intro s hh _
    exact ⟨rfl, by simp [undoGo], hh⟩
  | cons e rest ih =>
    intro s hh hrem
    obtain ⟨a, i, d, rem⟩ := e
    have hre : rem = [] := hrem ⟨a, i, d, rem⟩ (by simp)
    subst hre
    obtain ⟨h1, h2, h3⟩ := ih
      { s with
        moves := s.moves - 1
        history := rest
        complete_history :=
          ⟨.undo, i, getData s.cells i, []⟩ :: s.complete_history
        cells := setData s.cells i none
        empty_cells := i :: s.empty_cells }
      rfl (fun e he => hrem e (List.mem_cons_of_mem _ he))
    refine ⟨h1, ?_, h3⟩
    have hred : (undoGo s (⟨a, i, d, []⟩ :: rest)).1.moves =
        (undoGo
          { s with
            moves := s.moves - 1
            history := rest
            complete_history :=
              ⟨.undo, i, getData s.cells i, []⟩ :: s.complete_history
            cells := setData s.cells i none
            empty_cells := i :: s.empty_cells } rest).1.moves := rfl
    rw [hred, h2]
    show s.moves - 1 - ((rest.length : Int) + 1) = _
    simp only [List.length_cons]
    push_cast
    ring

theorem undo_empty_history (s : SudokuState) (h : s.history = []) :
    (undo s).1.cells = s.cells ∧ (undo s).1.moves = s.moves - 1 ∧
      (undo s).1.history = [] := by
  unfold undo
  rw [h]
  exact ⟨rfl, rfl, h⟩

theorem undoSeq_empty_history (n : Nat) :
    ∀ s : SudokuState, s.history = [] →
      (undoSeq s n).cells = s.cells ∧ (undoSeq s n).moves = s.moves - n ∧
      (undoSeq s n).history = [] := by
  induction n with
  | zero => intro s h; exact ⟨rfl, by simp [undoSeq], h⟩
  | succ n ih =>
    intro s h
    obtain ⟨h1, h2, h3⟩ := undo_empty_history s h
    obtain ⟨g1, g2, g3⟩ := ih (undo s).1 h3
    refine ⟨by rw [show undoSeq s (n+1) = undoSeq (undo s).1 n from rfl, g1, h1],
      ?_, by rw [show undoSeq s (n+1) = undoSeq (undo s).1 n from rfl, g3]⟩
    rw [show undoSeq s (n+1) = undoSeq (undo s).1 n from rfl, g2, h2]
    omega

theorem clearCells_append (l1 l2 : List Nat) :
    ∀ cells : List Cell,
      clearCells cells (l1 ++ l2) = clearCells (clearCells cells l1) l2 := by
  induction l1 with
  | nil => intro cells; rfl
  | cons i rest ih => intro cells; exact ih (setData cells i none)

theorem clearCells_writeCells (ws : List (Nat × Nat)) :
    ∀ cells : List Cell, (ws.map Prod.fst).Nodup →
      (∀ iv ∈ ws, getData cells iv.1 = none) →
      clearCells (writeCells cells ws) (ws.map Prod.fst).reverse = cells := by
  induction ws with
  | nil => intro cells _ _; rfl
  | cons iv rest ih =>
    intro cells hnd hfresh
    obtain ⟨i, v⟩ := iv
    rw [show (((i, v) :: rest).map Prod.fst) = i :: rest.map Prod.fst
      from rfl] at hnd
    have hnd0 := List.nodup_cons.1 hnd
    have hfresh' :
        ∀ jv ∈ rest, getData (setData cells i (some v)) jv.1 = none := by
      intro jv hjv
      have hne : jv.1 ≠ i := by
        intro he
        exact hnd0.1 (he ▸ List.mem_map_of_mem Prod.fst hjv)
      rw [getData_setData_ne _ _ _ _ hne]
      exact hfresh jv (List.mem_cons_of_mem _ hjv)
    have hrev : (((i, v) :: rest).map Prod.fst).reverse =
        (rest.map Prod.fst).reverse ++ [i] := by simp
    rw [hrev,
      show writeCells cells ((i, v) :: rest) =
        writeCells (setData cells i (some v)) rest from rfl,
      clearCells_append, ih _ hnd0.2 hfresh']
    show setData (setData cells i (some v)) i none = cells
    rw [setData_setData]
    exact setData_eq_of_getData_none cells i (hfresh (i, v) (by simp))

/-! ### Claim C4 -/

/-- C4 as stated is FALSE: `undo` is a backtracking step, not an inverse.
After one write logging the remaining candidate 7, one undo pops the entry,
finds 7 available, and REWRITES the cell with 7 via `write_and_log`, so the
grid differs from its pre-write state and `move_count` ends one above its
prior value rather than back at it. -/
theorem c4_counterexample :
    (undo (write_and_log oneCellState 0 5 [7])).1.cells ≠ oneCellState.cells ∧
    (undo (write_and_log oneCellState 0 5 [7])).1.moves ≠ oneCellState.moves ∧
    getData (undo (write_and_log oneCellState 0 5 [7])).1.cells 0 = some 7 ∧
    (undo (write_and_log oneCellState 0 5 [7])).1.moves =
      oneCellState.moves + 1 := by
  decide

/-- C4 amended: starting from a state with empty backtracking history, after
a sequence of writes to distinct empty cells, each logging an empty
remaining-candidate set, followed by an equal number of undos, every cell
value equals its pre-write state; `move_count`, however, returns to its
prior value MINUS the number of writes (each undo call decrements `moves`
once more than it restores: the first cascades through all entries and then
decrements once on the exhausted history, and each later undo decrements on
the already-empty history). -/
theorem c4_amended_writes_then_undos :
    ∀ (s : SudokuState) (ws : List (Nat × Nat)),
      s.history = [] →
      (ws.map Prod.fst).Nodup →
      (∀ iv ∈ ws, getData s.cells iv.1 = none) →
      (undoSeq (writeSeq s ws) ws.length).cells = s.cells ∧
      (undoSeq (writeSeq s ws) ws.length).moves = s.moves - ws.length := by
  intro s ws hh hnd hfresh
  cases ws with
  | nil => exact ⟨rfl, by simp [undoSeq, writeSeq]⟩
  | cons iv rest =>
    obtain ⟨hc, hhist, hm⟩ := writeSeq_fields (iv :: rest) s
    rw [hh, List.append_nil] at hhist
    have hallrem : ∀ e ∈ (writeSeq s (iv :: rest)).history, e.rem = [] := by
      rw [hhist]
      intro e he
      rw [List.mem_reverse, List.mem_map] at he
      obtain ⟨jv, _, rfl⟩ := he
      rfl
    have hcell_map : (writeSeq s (iv :: rest)).history.map HistEntry.cell =
        ((iv :: rest).map Prod.fst).reverse := by
      rw [hhist, List.map_reverse, List.map_map]
      rfl
    have hlen : (writeSeq s (iv :: rest)).history.length =
        (iv :: rest).length := by
      rw [hhist]
      simp
    obtain ⟨h1, h2, h3⟩ :=
      undoGo_all_empty_rem (writeSeq s (iv :: rest)).history
        (writeSeq s (iv :: rest)) rfl hallrem
    have huc : (undo (writeSeq s (iv :: rest))).1.cells = s.cells := by
      rw [show (undo (writeSeq s (iv :: rest))).1 =
        (undoGo (writeSeq s (iv :: rest)) (writeSeq s (iv :: rest)).history).1
        from rfl, h1, hcell_map, hc]
      exact clearCells_writeCells (iv :: rest) s.cells hnd hfresh
    have hum : (undo (writeSeq s (iv :: rest))).1.moves = s.moves - 1 := by
      rw [show (undo (writeSeq s (iv :: rest))).1 =
        (undoGo (writeSeq s (iv :: rest)) (writeSeq s (iv :: rest)).history).1
        from rfl, h2, hlen, hm]
      simp
      omega
    have huh : (undo (writeSeq s (iv :: rest))).1.history = [] := h3
    obtain ⟨g1, g2, _⟩ :=
      undoSeq_empty_history rest.length (undo (writeSeq s (iv :: rest))).1 huh
    have hstep : undoSeq (writeSeq s (iv :: rest)) (iv :: rest).length =
        undoSeq (undo (writeSeq s (iv :: rest))).1 rest.length := rfl
    refine ⟨by rw [hstep, g1, huc], ?_⟩
    rw [hstep, g2, hum]
    simp
    omega

theorem c4_amended_writes_then_undos_witness :
    (undoSeq (writeSeq twoCellState [(0, 5), (1, 3)]) 2).cells =
      twoCellState.cells ∧
    (undoSeq (writeSeq twoCellState [(0, 5), (1, 3)]) 2).moves =
      twoCellState.moves - 2 :=
  c4_amended_writes_then_undos twoCellState [(0, 5), (1, 3)] rfl
    (by decide) (by decide)

/-! ### Claim C3 lemmas -/

theorem swallow_clr :
    setData (setData (generate_cells swallowGrid) 0 (some 1)) 0 none =
      generate_cells swallowGrid := by decide

theorem swallow_gd :
    getData (setData (generate_cells swallowGrid) 0 (some 1)) 0 = some 1 := by
  decide

theorem swallow_stepA (m : Int) (tm : Nat) (ch : List LogEntry)
    (iter fuel : Nat) (tu : Nat → Bool) (rng : List Nat) (hm : m ≤ 0) :
    solveLoop false false tu rng iter (fuel + 1) (swallowState m tm ch) =
    solveLoop false false tu rng (iter + 1) fuel (swallowMid m tm ch) := by
  have hs : solved (swallowState m tm ch) = false := by
    simp [solved, swallowState]
    omega
  simp only [solveLoop, hs, Bool.false_and, if_false]
  rfl

theorem swallow_stepB (m : Int) (tm : Nat) (ch : List LogEntry)
    (iter fuel : Nat) (tu : Nat → Bool) (rng : List Nat) (hm : m ≤ 0) :
    solveLoop false false tu rng iter (fuel + 1) (swallowMid m tm ch) =
    solveLoop false false tu rng (iter + 1) fuel
      (swallowState (m - 1) (tm + 1)
        (⟨.undo, 0, some 1, []⟩ :: ⟨.write, 0, some 1, []⟩ :: ch)) := by
  have hs : solved (swallowMid m tm ch) = false := by
    simp [solved, swallowMid]
    omega
  have hred : undo (swallowMid m tm ch) =
      (swallowState (m - 1) (tm + 1)
        (⟨.undo, 0, some 1, []⟩ :: ⟨.write, 0, some 1, []⟩ :: ch), false) := by
    show undoGo (swallowMid m tm ch) [⟨.write, 0, 1, []⟩] = _
    simp only [undoGo]
    rw [Prod.mk.injEq]
    refine ⟨?_, rfl⟩
    simp [swallowMid, swallowState, swallow_clr, swallow_gd,
      SudokuState.mk.injEq]
  simp only [solveLoop, hs, Bool.false_and, if_false, hred]
  rfl

theorem swallow_loop_never_finishes :
    ∀ (fuel : Nat) (m : Int) (tm : Nat) (ch : List LogEntry) (iter : Nat)
      (tu : Nat → Bool) (rng : List Nat), m ≤ 0 →
      ∃ s1, solveLoop false false tu rng iter fuel (swallowState m tm ch) =
        .outOfFuel s1 := by
  intro fuel
  induction fuel using Nat.strong_induction_on with
  | _ fuel ih =>
    match fuel with
    | 0 => exact fun m tm ch iter tu rng hm => ⟨_, rfl⟩
    | 1 =>
      intro m tm ch iter tu rng hm
      rw [swallow_stepA m tm ch iter 0 tu rng hm]
      exact ⟨_, rfl⟩
    | (n + 2) =>
      intro m tm ch iter tu rng hm
      rw [swallow_stepA m tm ch iter (n + 1) tu rng hm,
        swallow_stepB m tm ch (iter + 1) n tu rng hm]
      exact ih n (by omega) (m - 1) (tm + 1) _ (iter + 2) tu rng (by omega)

/-! ### Claim C3 -/

/-- C3 is FALSE of the code: on the well-formed unsolvable `swallowGrid`
(cell (0,0) has the single candidate 1, after which cell (0,1) has none),
`solve` never terminates.  When the backtracking cascade inside `undo`
reaches the exhausted history, the recursive call `self.undo()` DISCARDS the
returned `True`, the enclosing call returns `None`, `fail` is falsy, and the
loop re-runs the same two-iteration cycle forever with `moves` drifting one
lower per cycle, never equal to `required_moves`: for every iteration budget
the loop is still running. -/
theorem c3_unsolvable_solve_never_terminates :
    ∀ (fuel : Nat) (tu : Nat → Bool) (rng : List Nat),
      isFinished (solve false false tu rng fuel (initState swallowGrid)) =
        false := by
  intro fuel tu rng
  have hinit : { initState swallowGrid with time := some 0 } =
      swallowState 0 0 [] := by decide
  obtain ⟨s1, h⟩ := swallow_loop_never_finishes fuel 0 0 [] 0 tu rng (by omega)
  unfold solve
  rw [hinit, h]
  rfl

/-! ### Claim C6 lemmas -/

theorem solveLoop_rng_irrel :
    ∀ (fuel : Nat) (tl : Bool) (tu : Nat → Bool) (rng1 rng2 : List Nat)
      (iter : Nat) (s : SudokuState),
      solveLoop false tl tu rng1 iter fuel s =
      solveLoop false tl tu rng2 iter fuel s := by
  intro fuel
  induction fuel with
  | zero => intro tl tu rng1 rng2 iter s; rfl
  | succ n ih =>
    intro tl tu rng1 rng2 iter s
    simp only [solveLoop]
    by_cases hs : solved s = true
    · simp [hs]
    · rw [Bool.not_eq_true] at hs
      simp only [hs, Bool.false_eq_true, if_false]
      by_cases ht : (tl && tu iter) = true
      · simp [ht]
      · rw [Bool.not_eq_true] at ht
        simp only [ht, Bool.false_eq_true, if_false]
        split
        · rfl
        · split
          · split
            · rfl
            · apply ih
          · apply ih

theorem avail_sorted (cells : List Cell) (i : Nat) :
    List.Pairwise (· < ·) (get_available_cell_values cells i) := by
  unfold get_available_cell_values
  cases cells.get? i with
  | none => exact List.Pairwise.nil
  | some c =>
    have h := List.pairwise_lt_range' 1 9
    exact h.filter _

/-! ### Claim C6 -/

/-- C6 is half right: with `randomized` false, `solve` on a fixed grid is
independent of the entropy stream, so two runs agree on everything including
the solved grid and `total_moves`.  But the digit written at each step is
NOT "the last element of the computed candidate set": `set.pop` on a CPython
set of digits removes the element in the lowest hash slot, i.e. the
SMALLEST candidate (the head of the ascending candidate list).  On
`twoChoiceGrid` the first empty cell has candidates [1, 2]; the completed
solve leaves 1 there, not the last element 2. -/
theorem c6_counterexample :
    get_available_cell_values (generate_cells twoChoiceGrid) 0 = [1, 2] ∧
    onFinished (solve false false noTime [] 5 (initState twoChoiceGrid))
      (fun s => getData s.cells 0 == some 1 && solved s) = true ∧
    (1 : Nat) ≠ 2 := by
  decide

/-- C6 amended: `solve(randomized=false)` on a fixed grid is deterministic
(the result does not depend on the entropy stream), and at each step the
digit written is the SMALLEST element of the computed candidate set (the
head of the ascending candidate list, which is strictly below every other
candidate), not the last. -/
theorem c6_amended_deterministic_writes_smallest :
    (∀ (tl : Bool) (tu : Nat → Bool) (rng1 rng2 : List Nat) (fuel : Nat)
      (g : List (List Seed)),
      solve false tl tu rng1 fuel (initState g) =
      solve false tl tu rng2 fuel (initState g)) ∧
    (∀ (cells : List Cell) (i v : Nat) (vs : List Nat),
      get_available_cell_values cells i = v :: vs → ∀ w ∈ vs, v < w) := by
  constructor
  · intro tl tu rng1 rng2 fuel g
    unfold solve
    rw [solveLoop_rng_irrel fuel tl tu rng1 rng2 0 _]
  · intro cells i v vs h w hw
    have hp := avail_sorted cells i
    rw [h] at hp
    exact (List.pairwise_cons.1 hp).1 w hw

theorem c6_amended_deterministic_writes_smallest_witness :
    solve false false noTime [3] 5 (initState twoChoiceGrid) =
      solve false false noTime [7, 7] 5 (initState twoChoiceGrid) ∧
    ∀ w ∈ [2], 1 < w :=
  ⟨c6_amended_deterministic_writes_smallest.1 false noTime [3] [7, 7] 5
      twoChoiceGrid,
   c6_amended_deterministic_writes_smallest.2 (generate_cells twoChoiceGrid)
      0 1 [2] (by decide)⟩

/-! ### Claim C1: further array lemmas -/

theorem getData_setData_if (cells : List Cell) (i : Nat) (v : Option Nat) :
    getData (setData cells i v) i =
      if i < cells.length then v else none := by
  induction cells generalizing i with
  | nil => cases i <;> rfl
  | cons c cs ih =>
    cases i with
    | zero => simp [setData, getData]
    | succ n =>
      rw [show setData (c :: cs) (n + 1) v = c :: setData cs n v from rfl,
        show getData (c :: setData cs n v) (n + 1) = getData (setData cs n v) n
          from rfl, ih n]
      simp [Nat.succ_lt_succ_iff]

theorem getData_setData_self (cells : List Cell) (i : Nat) (v : Option Nat)
    (h : i < cells.length) : getData (setData cells i v) i = v := by
  rw [getData_setData_if, if_pos h]

theorem getData_none_of_ge (cells : List Cell) (i : Nat)
    (h : cells.length ≤ i) : getData cells i = none := by
  rw [getData_eq_get?]
  rw [show cells.get? i = none from List.get?_eq_none.2 h]

theorem get_setData (cells : List Cell) (i : Nat) (v : Option Nat) (j : Nat)
    (hj : j < cells.length) (hj2 : j < (setData cells i v).length) :
    (setData cells i v).get ⟨j, hj2⟩ =
      if j = i then { cells.get ⟨j, hj⟩ with data := v }
      else cells.get ⟨j, hj⟩ := by
  have h1 : (setData cells i v).get? j = some ((setData cells i v).get ⟨j, hj2⟩) :=
    List.get?_eq_get hj2
  rw [get?_setData, List.get?_eq_get hj] at h1
  by_cases hji : j = i
  · rw [if_pos hji] at h1
    rw [if_pos hji]
    exact (Option.some.inj h1).symm
  · rw [if_neg hji] at h1
    rw [if_neg hji]
    exact (Option.some.inj h1).symm

theorem mem_empty_cells_init (cells : List Cell) (i : Nat) :
    i ∈ empty_cells_init cells ↔
      i < cells.length ∧ getData cells i = none := by
  unfold empty_cells_init
  rw [List.mem_filter, List.mem_range]
  constructor
  · rintro ⟨h1, h2⟩
    exact ⟨h1, by simpa [Option.isNone_iff_eq_none] using h2⟩
  · rintro ⟨h1, h2⟩
    exact ⟨h1, by simp [h2]⟩

theorem length_applyHist (init : List Cell) (l : List HistEntry) :
    (applyHist init l).length = init.length := by
  induction l with
  | nil => rfl
  | cons e rest ih =>
    rw [show applyHist init (e :: rest) =
      setData (applyHist init rest) e.cell (some e.data) from rfl,
      length_setData, ih]

theorem getData_applyHist_not_mem (init : List Cell) (l : List HistEntry)
    (i : Nat) (h : i ∉ l.map HistEntry.cell) :
    getData (applyHist init l) i = getData init i := by
  induction l with
  | nil => rfl
  | cons e rest ih =>
    have hne : i ≠ e.cell := by
      intro he
      exact h (by simp [he])
    rw [show applyHist init (e :: rest) =
      setData (applyHist init rest) e.cell (some e.data) from rfl,
      getData_setData_ne _ _ _ _ hne, ih (fun hm => h (by simp [hm]))]

theorem stripCoords_applyHist (init : List Cell) (l : List HistEntry) :
    stripCoords (applyHist init l) = stripCoords init := by
  induction l with
  | nil => rfl
  | cons e rest ih =>
    rw [show applyHist init (e :: rest) =
      setData (applyHist init rest) e.cell (some e.data) from rfl,
      stripCoords_setData, ih]

theorem getData_applyHist_mem (init : List Cell) (l : List HistEntry)
    (hlt : ∀ e ∈ l, e.cell < init.length) (i : Nat)
    (h : i ∈ l.map HistEntry.cell) :
    ∃ w, getData (applyHist init l) i = some w := by
  induction l with
  | nil => cases h
  | cons e rest ih =>
    rw [show applyHist init (e :: rest) =
      setData (applyHist init rest) e.cell (some e.data) from rfl]
    by_cases hie : i = e.cell
    · subst hie
      refine ⟨e.data, getData_setData_self _ _ _ ?_⟩
      rw [length_applyHist]
      exact hlt e (by simp)
    · rw [getData_setData_ne _ _ _ _ hie]
      apply ih (fun d hd => hlt d (by simp [hd]))
      rcases List.mem_map.1 h with ⟨d, hd, hdc⟩
      rcases List.mem_cons.1 hd with h1 | h1
      · exact absurd (h1 ▸ hdc).symm hie
      · exact hdc ▸ List.mem_map_of_mem HistEntry.cell h1

theorem getData_applyHist_some (init : List Cell) (l : List HistEntry)
    (i : Nat) (w : Nat) (h : getData init i = some w) :
    ∃ u, getData (applyHist init l) i = some u := by
  induction l with
  | nil => exact ⟨w, h⟩
  | cons e rest ih =>
    obtain ⟨u, hu⟩ := ih
    rw [show applyHist init (e :: rest) =
      setData (applyHist init rest) e.cell (some e.data) from rfl]
    by_cases hie : i = e.cell
    · subst hie
      refine ⟨e.data, getData_setData_self _ _ _ ?_⟩
      rw [length_applyHist]
      by_contra hge
      rw [getData_none_of_ge init e.cell (by omega)] at h
      cases h
    · rw [getData_setData_ne _ _ _ _ hie]
      exact ⟨u, hu⟩

theorem getData_applyHist_range (init : List Cell) (l : List HistEntry)
    (hinit : ∀ i v, getData init i = some v → 1 ≤ v ∧ v ≤ 9)
    (hvals : ∀ e ∈ l, 1 ≤ e.data ∧ e.data ≤ 9) :
    ∀ i v, getData (applyHist init l) i = some v → 1 ≤ v ∧ v ≤ 9 := by
  induction l with
  | nil => exact hinit
  | cons e rest ih =>
    intro i v h
    rw [show applyHist init (e :: rest) =
      setData (applyHist init rest) e.cell (some e.data) from rfl] at h
    by_cases hie : i = e.cell
    · subst hie
      rw [getData_setData_if] at h
      split at h
      · cases h
        exact hvals e (by simp)
      · cases h
    · rw [getData_setData_ne _ _ _ _ hie] at h
      exact ih (fun d hd => hvals d (by simp [hd])) i v h

theorem init_data_range (grid : List (List Seed)) :
    ∀ i v, getData (generate_cells grid) i = some v → 1 ≤ v ∧ v ≤ 9 := by
  intro i v h
  rw [getData_eq_get?] at h
  cases hc : (generate_cells grid).get? i with
  | none => rw [hc] at h; cases h
  | some c =>
    rw [hc] at h
    obtain ⟨s, hs⟩ := generate_cells_data grid c (List.get?_mem hc)
    exact seedData_range s v (by rw [← hs, ← h])

theorem choiceIdx_lt (rng : List Nat) (n : Nat) (hn : 0 < n) :
    (choiceIdx rng n).1 < n := by
  cases rng with
  | nil => simpa [choiceIdx] using hn
  | cons r rest => exact Nat.mod_lt _ hn

theorem getD_mem (l : List Nat) (j : Nat) (hj : j < l.length) :
    l.getD j 0 ∈ l := by
  rw [List.getD_eq_getElem?_getD, List.getElem?_eq_getElem hj]
  simp

/-! ### Claim C1: consistency is preserved by available writes -/

theorem sameArea_data_irrel (a b : Cell) (v : Option Nat) :
    sameArea { a with data := v } b = sameArea a b := rfl

theorem consistent_setData_write {cells : List Cell} {i v : Nat} {c : Cell}
    (hc : cells.get? i = some c)
    (hv : v ∈ get_available_cell_values cells i) (hcons : consistent cells) :
    consistent (setData cells i (some v)) := by
  have hil : i < cells.length := by
    by_contra hge
    rw [List.get?_eq_none.2 (by omega)] at hc
    cases hc
  have hci : cells.get ⟨i, hil⟩ = c := by
    have := List.get?_eq_get hil
    rw [hc] at this
    exact (Option.some.inj this).symm
  rw [consistent, List.pairwise_iff_get] at hcons ⊢
  intro j k hjk
  have hL := length_setData cells i (some v)
  have hjl : (j : Nat) < cells.length := by
    have := j.isLt
    omega
  have hkl : (k : Nat) < cells.length := by
    have := k.isLt
    omega
  rw [get_setData cells i (some v) j hjl j.isLt,
    get_setData cells i (some v) k hkl k.isLt]
  have hbase := hcons ⟨j, hjl⟩ ⟨k, hkl⟩ (by simpa using hjk)
  have hjk2 : (j : Nat) < (k : Nat) := hjk
  by_cases hji : (j : Nat) = i
  · rw [if_pos hji]
    by_cases hki : (k : Nat) = i
    · omega
    · rw [if_neg hki]
      have hjc : cells.get ⟨(j : Nat), hjl⟩ = c := by
        have hfe : (⟨(j : Nat), hjl⟩ : Fin cells.length) = ⟨i, hil⟩ := by
          simp [hji]
        rw [hfe, hci]
      intro hsame _ heq
      have hsame2 : sameArea c (cells.get ⟨(k : Nat), hkl⟩) = true := by
        rw [← hjc]
        rw [sameArea_data_irrel] at hsame
        exact hsame
      exact avail_not_taken hc hv (List.get_mem _ _ _) hsame2 heq.symm
  · rw [if_neg hji]
    by_cases hki : (k : Nat) = i
    · rw [if_pos hki]
      have hkc : cells.get ⟨(k : Nat), hkl⟩ = c := by
        have hfe : (⟨(k : Nat), hkl⟩ : Fin cells.length) = ⟨i, hil⟩ := by
          simp [hki]
        rw [hfe, hci]
      intro hsame hsome heq
      have hsame2 : sameArea c (cells.get ⟨(j : Nat), hjl⟩) = true := by
        rw [sameArea_iff] at hsame ⊢
        rw [← hkc]
        tauto
      have hne := avail_not_taken hc hv
        (List.get_mem cells (j : Nat) hjl) hsame2
      rw [heq] at hne
      exact hne rfl
    · rw [if_neg hki]
      exact hbase

theorem applyHist_consistent (init : List Cell) (hcons : consistent init) :
    ∀ l : List HistEntry,
      (∀ e ∈ l, e.cell ∈ empty_cells_init init) →
      (∀ pre e post, l = pre ++ e :: post →
        e.data ∈ get_available_cell_values (applyHist init post) e.cell) →
      consistent (applyHist init l) := by
  intro l
  induction l with
  | nil => intro _ _; exact hcons
  | cons e rest ih =>
    intro hmem havail
    have hco : consistent (applyHist init rest) :=
      ih (fun d hd => hmem d (List.mem_cons_of_mem _ hd))
        (fun pre d post h => havail (e :: pre) d post (by rw [h]; rfl))
    have hlt : e.cell < init.length :=
      ((mem_empty_cells_init init e.cell).1 (hmem e (by simp))).1
    have hlt2 : e.cell < (applyHist init rest).length := by
      rw [length_applyHist]
      exact hlt
    have hav := havail [] e rest rfl
    exact consistent_setData_write (List.get?_eq_get hlt2) hav hco

/-! ### Claim C1: the solver preserves the invariant -/

theorem inv_of_eq_core {init : List Cell} {s t : SudokuState}
    (hInv : Inv init s)
    (hc : t.cells = s.cells) (he : t.empty_cells = s.empty_cells)
    (hh : t.history = s.history) (hm : t.moves = s.moves)
    (hr : t.required_moves = s.required_moves) : Inv init t := by
  refine ⟨?_, ?_, ?_, ?_, ?_, ?_, ?_, ?_⟩
  · rw [hc, hh]; exact hInv.cellsEq
  · rw [hh]; exact hInv.histNodup
  · rw [hh]; exact hInv.histMem
  · intro pre e post h
    exact hInv.avail pre e post (by rw [← hh]; exact h)
  · rw [he]; exact hInv.ecNodup
  · intro i
    rw [he, hh]
    exact hInv.ecMem i
  · rw [hm, hh]; exact hInv.movesLe
  · rw [hr]; exact hInv.reqEq

theorem inv_init (grid : List (List Seed)) :
    Inv (generate_cells grid) (initState grid) := by
  refine ⟨rfl, ?_, ?_, ?_, ?_, ?_, ?_, rfl⟩
  · show (([] : List HistEntry).map HistEntry.cell).Nodup
    simp
  · show ∀ e ∈ ([] : List HistEntry), _
    simp
  · intro pre e post h
    have h2 : ([] : List HistEntry) = pre ++ e :: post := h
    exact absurd h2 (by simp)
  · show (empty_cells_init (generate_cells grid)).Nodup
    exact List.Nodup.filter _ (List.nodup_range _)
  · intro i
    show i ∈ empty_cells_init (generate_cells grid) ↔
      i ∈ empty_cells_init (generate_cells grid) ∧
      i ∉ ([] : List HistEntry).map HistEntry.cell
    simp
  · show (0 : Int) ≤ (([] : List HistEntry).length : Int)
    simp

theorem inv_write {init : List Cell} {s : SudokuState} (hInv : Inv init s)
    {c : Nat} {rest : List Nat} (hec : s.empty_cells = c :: rest)
    {v : Nat} {others : List Nat}
    (hv : v ∈ get_available_cell_values s.cells c)
    (ho : ∀ w ∈ others, w ∈ get_available_cell_values s.cells c) :
    Inv init (write_and_log { s with empty_cells := rest } c v others) := by
  have hcEI := (hInv.ecMem c).1 (by rw [hec]; exact List.mem_cons_self _ _)
  have hcnr : c ∉ rest := by
    have := hInv.ecNodup
    rw [hec, List.nodup_cons] at this
    exact this.1
  refine ⟨?_, ?_, ?_, ?_, ?_, ?_, ?_, ?_⟩
  · show setData s.cells c (some v) =
      applyHist init (⟨.write, c, v, others⟩ :: s.history)
    rw [hInv.cellsEq]
    rfl
  · show (c :: s.history.map HistEntry.cell).Nodup
    rw [List.nodup_cons]
    exact ⟨hcEI.2, hInv.histNodup⟩
  · intro e he
    rcases List.mem_cons.1 he with h1 | h1
    · rw [h1]
      exact hcEI.1
    · exact hInv.histMem e h1
  · intro pre e post h
    cases pre with
    | nil =>
      injection h with h1 h2
      rw [← h1, ← h2]
      refine ⟨?_, ?_⟩
      · show v ∈ get_available_cell_values (applyHist init s.history) c
        rw [← hInv.cellsEq]
        exact hv
      · intro w hw
        show w ∈ get_available_cell_values (applyHist init s.history) c
        rw [← hInv.cellsEq]
        exact ho w hw
    | cons f pre2 =>
      injection h with h1 h2
      exact hInv.avail pre2 e post h2
  · show rest.Nodup
    have := hInv.ecNodup
    rw [hec, List.nodup_cons] at this
    exact this.2
  · intro i
    constructor
    · intro hi
      have h0 := (hInv.ecMem i).1 (by rw [hec]; exact List.mem_cons_of_mem _ hi)
      refine ⟨h0.1, ?_⟩
      show i ∉ c :: s.history.map HistEntry.cell
      rw [List.mem_cons]
      rintro (h1 | h1)
      · exact hcnr (h1 ▸ hi)
      · exact h0.2 h1
    · rintro ⟨h1, h2⟩
      have h2b : i ∉ c :: s.history.map HistEntry.cell := h2
      rw [List.mem_cons] at h2b
      push_neg at h2b
      have := (hInv.ecMem i).2 ⟨h1, h2b.2⟩
      rw [hec, List.mem_cons] at this
      rcases this with h3 | h3
      · exact absurd h3 h2b.1
      · exact h3
  · show s.moves + 1 ≤ (((⟨.write, c, v, others⟩ : HistEntry) ::
      s.history).length : Int)
    have := hInv.movesLe
    rw [List.length_cons]
    push_cast
    omega
  · exact hInv.reqEq

theorem inv_undoGo {init : List Cell} :
    ∀ (l : List HistEntry) (s : SudokuState), s.history = l → Inv init s →
      Inv init (undoGo s l).1 := by
  intro l
  induction l with
  | nil =>
    intro s hh hInv
    refine ⟨hInv.cellsEq, hInv.histNodup, hInv.histMem, hInv.avail,
      hInv.ecNodup, hInv.ecMem, ?_, hInv.reqEq⟩
    have := hInv.movesLe
    show s.moves - 1 ≤ (s.history.length : Int)
    omega
  | cons e rest ih =>
    intro s hh hInv
    obtain ⟨a, i, d, rem⟩ := e
    have hav := hInv.avail [] ⟨a, i, d, rem⟩ rest (by rw [hh]; rfl)
    have hiEI : i ∈ empty_cells_init init :=
      hInv.histMem ⟨a, i, d, rem⟩ (by rw [hh]; exact List.mem_cons_self _ _)
    have hnodup := hInv.histNodup
    rw [hh] at hnodup
    rw [show ((⟨a, i, d, rem⟩ : HistEntry) :: rest).map HistEntry.cell =
      i :: rest.map HistEntry.cell from rfl, List.nodup_cons] at hnodup
    cases rem with
    | cons w ws =>
      refine ⟨?_, ?_, ?_, ?_, ?_, ?_, ?_, ?_⟩
      · show setData s.cells i (some w) =
          applyHist init (⟨.write, i, w, ws⟩ :: rest)
        rw [hInv.cellsEq, hh,
          show applyHist init ((⟨a, i, d, w :: ws⟩ : HistEntry) :: rest) =
            setData (applyHist init rest) i (some d) from rfl,
          setData_setData]
        rfl
      · show (i :: rest.map HistEntry.cell).Nodup
        rw [List.nodup_cons]
        exact ⟨hnodup.1, hnodup.2⟩
      · intro f hf
        rcases List.mem_cons.1 hf with h1 | h1
        · rw [h1]
          exact hiEI
        · exact hInv.histMem f (by rw [hh]; exact List.mem_cons_of_mem _ h1)
      · intro pre f post h
        cases pre with
        | nil =>
          injection h with h1 h2
          rw [← h1, ← h2]
          exact ⟨hav.2 w (by simp), fun x hx => hav.2 x (by simp [hx])⟩
        | cons g pre2 =>
          injection h with h1 h2
          have h2b : rest = pre2 ++ f :: post := h2
          exact hInv.avail (⟨a, i, d, w :: ws⟩ :: pre2) f post
            (by rw [hh, h2b]; rfl)
      · exact hInv.ecNodup
      · intro j
        show j ∈ s.empty_cells ↔
          j ∈ empty_cells_init init ∧ j ∉ i :: rest.map HistEntry.cell
        have h0 := hInv.ecMem j
        rw [hh] at h0
        exact h0
      · show s.moves - 1 + 1 ≤
          (((⟨Action.write, i, w, ws⟩ : HistEntry) :: rest).length : Int)
        have := hInv.movesLe
        rw [hh, List.length_cons] at this
        rw [List.length_cons]
        push_cast at this ⊢
        omega
      · exact hInv.reqEq
    | nil =>
      have hnone : getData init i = none :=
        ((mem_empty_cells_init init i).1 hiEI).2
      have hs2 : Inv init
          { s with
            moves := s.moves - 1
            history := rest
            complete_history :=
              ⟨.undo, i, getData s.cells i, []⟩ :: s.complete_history
            cells := setData s.cells i none
            empty_cells := i :: s.empty_cells } := by
        have hinotec : i ∉ s.empty_cells := fun hmem =>
          ((hInv.ecMem i).1 hmem).2
            (by rw [hh]; exact List.mem_cons_self _ _)
        refine ⟨?_, hnodup.2, ?_, ?_, ?_, ?_, ?_, hInv.reqEq⟩
        · show setData s.cells i none = applyHist init rest
          rw [hInv.cellsEq, hh,
            show applyHist init ((⟨a, i, d, []⟩ : HistEntry) :: rest) =
              setData (applyHist init rest) i (some d) from rfl,
            setData_setData]
          exact setData_eq_of_getData_none _ _
            (by rw [getData_applyHist_not_mem init rest i hnodup.1]; exact hnone)
        · intro f hf
          exact hInv.histMem f (by rw [hh]; exact List.mem_cons_of_mem _ hf)
        · intro pre f post h
          have hb : rest = pre ++ f :: post := h
          exact hInv.avail (⟨a, i, d, []⟩ :: pre) f post
            (by rw [hh, hb]; rfl)
        · show (i :: s.empty_cells).Nodup
          rw [List.nodup_cons]
          exact ⟨hinotec, hInv.ecNodup⟩
        · intro j
          rw [List.mem_cons]
          constructor
          · rintro (h1 | h1)
            · subst h1
              exact ⟨hiEI, hnodup.1⟩
            · have h0 := (hInv.ecMem j).1 h1
              refine ⟨h0.1, fun hm => h0.2 ?_⟩
              rw [hh]
              exact List.mem_cons_of_mem _ hm
          · rintro ⟨h1, h2⟩
            by_cases hji : j = i
            · exact Or.inl hji
            · refine Or.inr ((hInv.ecMem j).2 ⟨h1, ?_⟩)
              rw [hh]
              intro hm
              rcases List.mem_cons.1 hm with h3 | h3
              · exact hji h3
              · exact h2 h3
        · show s.moves - 1 ≤ _
          have := hInv.movesLe
          rw [hh, List.length_cons] at this
          push_cast at this ⊢
          omega
      exact ih _ rfl hs2

theorem inv_solveLoop {init : List Cell} :
    ∀ (fuel : Nat) (randomly tl : Bool) (tu : Nat → Bool) (rng : List Nat)
      (iter : Nat) (s s1 : SudokuState), Inv init s →
      solveLoop randomly tl tu rng iter fuel s = .finished s1 →
      Inv init s1 := by
  intro fuel
  induction fuel with
  | zero =>
    intro _ _ _ _ _ _ _ _ h
    exact absurd h (by simp [solveLoop])
  | succ n ih =>
    intro randomly tl tu rng iter s s1 hInv hrun
    simp only [solveLoop] at hrun
    split at hrun
    · cases hrun
      exact hInv
    · split at hrun
      · cases hrun
        exact inv_of_eq_core hInv rfl rfl rfl rfl rfl
      · split at hrun
        · exact absurd hrun (by simp)
        · rename_i c restEmpty heqec
          split at hrun
          · rename_i heqav
            split at hrun
            · rename_i s2 hequndo
              cases hrun
              have hs2 : (undo s).1 = s2 := by rw [hequndo]
              have hInv2 : Inv init s2 := by
                rw [← hs2]
                exact inv_undoGo s.history s rfl hInv
              exact inv_of_eq_core hInv2 rfl rfl rfl rfl rfl
            · rename_i s2 hequndo
              have hs2 : (undo s).1 = s2 := by rw [hequndo]
              refine ih randomly tl tu rng (iter + 1) s2 s1 ?_ hrun
              rw [← hs2]
              exact inv_undoGo s.history s rfl hInv
          · rename_i v restVals heqav
            split at hrun
            · -- randomly = true
              refine ih randomly tl tu _ (iter + 1) _ s1 ?_ hrun
              have hlen : 0 < (v :: restVals).length := by simp
              have hv : (v :: restVals).getD
                  (choiceIdx rng (v :: restVals).length).1 0 ∈
                  get_available_cell_values s.cells c := by
                rw [heqav]
                exact getD_mem _ _ (choiceIdx_lt rng _ hlen)
              exact inv_write hInv heqec hv
                (fun w hw => by
                  rw [heqav]
                  exact List.erase_subset _ _ hw)
            · refine ih randomly tl tu rng (iter + 1) _ s1 ?_ hrun
              exact inv_write hInv heqec
                (by rw [heqav]; exact List.mem_cons_self _ _)
                (fun w hw => by rw [heqav]; exact List.mem_cons_of_mem _ hw)

theorem inv_solve {init : List Cell} {randomly tl : Bool} {tu : Nat → Bool}
    {rng : List Nat} {fuel : Nat} {s s1 : SudokuState}
    (hInv : Inv init s) (h : solve randomly tl tu rng fuel s = .finished s1) :
    Inv init s1 := by
  obtain ⟨s2, hl, rfl⟩ := solve_finished_shape h
  have hInv0 : Inv init { s with time := some 0 } :=
    inv_of_eq_core hInv rfl rfl rfl rfl rfl
  have hInv2 := inv_solveLoop fuel randomly tl tu rng 0 _ s2 hInv0 hl
  exact inv_of_eq_core hInv2 rfl rfl rfl rfl rfl


theorem enum_map_fst_apply {α β : Type} (l : List α) (g : Nat → β) :
    l.enum.map (fun yv => g yv.1) = (List.range l.length).map g := by
  rw [show (fun yv : Nat × α => g yv.1) = g ∘ Prod.fst from rfl, ← List.map_map,
    List.enum_map_fst]

theorem gridCoords_std :
    ∀ (grid : List (List Seed)) (n : Nat), (∀ r ∈ grid, r.length = 9) →
      ((List.enumFrom n grid).flatMap fun xr =>
        xr.2.enum.map fun yv => (xr.1, yv.1, (xr.1 / 3) * 3 + yv.1 / 3)) =
      (List.range' n grid.length).flatMap fun x =>
        (List.range 9).map fun y => (x, y, (x / 3) * 3 + y / 3) := by
  intro grid
  induction grid with
  | nil => intro n _; rfl
  | cons r rest ih =>
    intro n hr
    rw [List.enumFrom_cons,
      show (r :: rest).length = rest.length + 1 from rfl, List.range'_succ]
    rw [List.flatMap_cons, List.flatMap_cons]
    congr 1
    · show r.enum.map (fun yv => (n, yv.1, (n / 3) * 3 + yv.1 / 3)) = _
      rw [enum_map_fst_apply r (fun y => (n, y, (n / 3) * 3 + y / 3)),
        hr r (List.mem_cons_self _ _)]
    · exact ih (n + 1) (fun d hd => hr d (List.mem_cons_of_mem _ hd))

theorem generate_cells_coords (grid : List (List Seed))
    (h : gridShapeB grid = true) :
    stripCoords (generate_cells grid) = stdCoords := by
  unfold gridShapeB at h
  rw [Bool.and_eq_true] at h
  have h9 : grid.length = 9 := by simpa using h.1
  have hrows : ∀ r ∈ grid, r.length = 9 := by
    have := List.all_eq_true.1 h.2
    intro r hr
    simpa using this r hr
  calc stripCoords (generate_cells grid)
      = (List.enumFrom 0 grid).flatMap (fun xr =>
          xr.2.enum.map fun yv => (xr.1, yv.1, (xr.1 / 3) * 3 + yv.1 / 3)) := by
        unfold stripCoords generate_cells
        rw [List.map_flatMap, List.enum_eq_enumFrom]
        simp only [List.map_map]
        rfl
    _ = (List.range' 0 grid.length).flatMap (fun x =>
          (List.range 9).map fun y => (x, y, (x / 3) * 3 + y / 3)) :=
        gridCoords_std grid 0 hrows
    _ = stdCoords := by rw [h9]; decide


theorem area_exactly_once (F : List Cell) (p : Cell → Bool)
    (hlen : (F.filter p).length = 9)
    (hsame : ∀ c d : Cell, p c = true → p d = true → sameArea c d = true)
    (hcons : consistent F)
    (hfilled : ∀ c ∈ F, ∃ v, c.data = some v ∧ 1 ≤ v ∧ v ≤ 9) :
    ∀ v : Nat, 1 ≤ v → v ≤ 9 →
      ((F.filter p).map Cell.data).count (some v) = 1 := by
  intro v hv1 hv9
  have h1 : List.Pairwise CellOK (F.filter p) := List.Pairwise.filter p hcons
  have hpair : List.Pairwise (fun c d : Cell => c.data ≠ d.data)
      (F.filter p) := by
    refine h1.imp_of_mem ?_
    intro c d hc hd hR
    obtain ⟨w, hw, _, _⟩ := hfilled c (List.mem_of_mem_filter hc)
    exact hR (hsame c d (List.of_mem_filter hc) (List.of_mem_filter hd))
      (by rw [hw]; rfl)
  have hnodup : ((F.filter p).map Cell.data).Nodup := List.pairwise_map.2 hpair
  have hsub : ((F.filter p).map Cell.data) ⊆ (List.range' 1 9).map some := by
    intro x hx
    rw [List.mem_map] at hx
    obtain ⟨c, hc, rfl⟩ := hx
    obtain ⟨w, hw, hw1, hw9⟩ := hfilled c (List.mem_of_mem_filter hc)
    rw [hw]
    exact List.mem_map_of_mem some (by rw [List.mem_range'_1]; omega)
  have hperm : ((F.filter p).map Cell.data).Perm ((List.range' 1 9).map some) := by
    refine (hnodup.subperm hsub).perm_of_length_le ?_
    simp [hlen]
  have hcnt : ((F.filter p).map Cell.data).count (some v) =
      ((List.range' 1 9).map some).count (some v) :=
    List.Perm.countP_eq _ hperm
  rw [hcnt]
  interval_cases v <;> decide

theorem filter_length_by_coords (F : List Cell) (q : Nat × Nat × Nat → Bool)
    (hstrip : stripCoords F = stdCoords) :
    (F.filter fun c => q (c.row, c.column, c.square)).length =
      (stdCoords.filter q).length := by
  rw [← List.countP_eq_length_filter, ← List.countP_eq_length_filter, ← hstrip]
  unfold stripCoords
  rw [List.countP_map]
  rfl

theorem validAreas_of_full_consistent (F : List Cell)
    (hstrip : stripCoords F = stdCoords)
    (hcons : consistent F)
    (hfilled : ∀ c ∈ F, ∃ v, c.data = some v ∧ 1 ≤ v ∧ v ≤ 9) :
    validAreas F = true := by
  unfold validAreas
  rw [List.all_eq_true]
  intro a ha
  rw [List.mem_range] at ha
  rw [List.all_eq_true]
  intro v hv
  rw [List.mem_range'_1] at hv
  have hrowlen : (F.filter fun c => c.row == a).length = 9 := by
    have h1 := filter_length_by_coords F (fun t => t.1 == a) hstrip
    have h2 : ((stdCoords.filter fun t => t.1 == a).length) = 9 := by
      interval_cases a <;> decide
    exact h1.trans h2
  have hcollen : (F.filter fun c => c.column == a).length = 9 := by
    have h1 := filter_length_by_coords F (fun t => t.2.1 == a) hstrip
    have h2 : ((stdCoords.filter fun t => t.2.1 == a).length) = 9 := by
      interval_cases a <;> decide
    exact h1.trans h2
  have hsqlen : (F.filter fun c => c.square == a).length = 9 := by
    have h1 := filter_length_by_coords F (fun t => t.2.2 == a) hstrip
    have h2 : ((stdCoords.filter fun t => t.2.2 == a).length) = 9 := by
      interval_cases a <;> decide
    exact h1.trans h2
  have hrow := area_exactly_once F (fun c => c.row == a) hrowlen
    (fun c d hc hd => by
      rw [sameArea_iff]
      exact Or.inl (by
        rw [beq_iff_eq] at hc hd
        rw [hc, hd]))
    hcons hfilled v (by omega) (by omega)
  have hcol := area_exactly_once F (fun c => c.column == a) hcollen
    (fun c d hc hd => by
      rw [sameArea_iff]
      exact Or.inr (Or.inl (by
        rw [beq_iff_eq] at hc hd
        rw [hc, hd])))
    hcons hfilled v (by omega) (by omega)
  have hsq := area_exactly_once F (fun c => c.square == a) hsqlen
    (fun c d hc hd => by
      rw [sameArea_iff]
      exact Or.inr (Or.inr (by
        rw [beq_iff_eq] at hc hd
        rw [hc, hd])))
    hcons hfilled v (by omega) (by omega)
  simp [hrow, hcol, hsq]


theorem solved_filled (grid : List (List Seed)) (s1 : SudokuState)
    (hInv : Inv (generate_cells grid) s1) (hsolved : solved s1 = true) :
    ∀ c ∈ s1.cells, ∃ v, c.data = some v ∧ 1 ≤ v ∧ v ≤ 9 := by
  set init := generate_cells grid with hinit
  have hmoves : s1.moves = (s1.required_moves : Int) := by
    have : (s1.moves == (s1.required_moves : Int)) = true := hsolved
    exact beq_iff_eq.1 this
  have hmapsub : s1.history.map HistEntry.cell ⊆ empty_cells_init init := by
    intro i hi
    rw [List.mem_map] at hi
    obtain ⟨e, he, rfl⟩ := hi
    exact hInv.histMem e he
  have hlenle : s1.history.length ≤ (empty_cells_init init).length := by
    have := (hInv.histNodup.subperm hmapsub).length_le
    simpa using this
  have hlenge : (empty_cells_init init).length ≤ s1.history.length := by
    have h1 := hInv.movesLe
    rw [hmoves, hInv.reqEq] at h1
    exact_mod_cast h1
  have hperm : (s1.history.map HistEntry.cell).Perm (empty_cells_init init) := by
    refine (hInv.histNodup.subperm hmapsub).perm_of_length_le ?_
    rw [List.length_map]
    omega
  have hlt : ∀ e ∈ s1.history, e.cell < init.length := fun e he =>
    ((mem_empty_cells_init init e.cell).1 (hInv.histMem e he)).1
  have hvals : ∀ e ∈ s1.history, 1 ≤ e.data ∧ e.data ≤ 9 := by
    intro e he
    obtain ⟨pre, post, hsplit⟩ := List.append_of_mem he
    exact avail_range (hInv.avail pre e post hsplit).1
  have hrange := getData_applyHist_range init s1.history
    (init_data_range grid) hvals
  intro c hc
  obtain ⟨j, hj⟩ := List.mem_iff_get?.1 hc
  have hdata : getData s1.cells j = c.data := by
    rw [getData_eq_get?, hj]
  have hfill : ∃ v, getData s1.cells j = some v := by
    rw [hInv.cellsEq]
    cases hji : getData init j with
    | some w => exact getData_applyHist_some init s1.history j w hji
    | none =>
      apply getData_applyHist_mem init s1.history hlt j
      rw [hperm.mem_iff]
      rw [mem_empty_cells_init]
      refine ⟨?_, hji⟩
      obtain ⟨hjlen, _⟩ := List.get?_eq_some.1 hj
      have := length_applyHist init s1.history
      rw [hInv.cellsEq] at hjlen
      omega
  obtain ⟨v, hv⟩ := hfill
  refine ⟨v, by rw [← hdata, hv], ?_⟩
  apply hrange j v
  rw [← hInv.cellsEq]
  exact hv

/-! ### Claim C1 -/

/-- C1 as stated is FALSE: the code never validates the starting grid, so a
grid already containing a duplicated digit can still complete with the
solved condition (every empty cell written with an available digit), and the
duplicate survives into the "solved" grid.  On `dupGrid` (a complete valid
grid with its last cell emptied and cell (0,0) changed to duplicate the 2 at
(0,1)), solve finishes solved, yet row 0 does not contain each digit
exactly once. -/
theorem c1_counterexample :
    gridShapeB dupGrid = true ∧
    onFinished (solve false false noTime [] 3 (initState dupGrid))
      (fun s => solved s && !(validAreas s.cells)) = true := by
  decide

/-- C1 amended: for every starting 9x9 grid whose initially filled cells are
themselves consistent (no digit repeated within any row, column, or block),
whenever `solve` exits with the solved condition (moves equal to
required_moves, which forces every cell to be written), the resulting grid
is valid: each of the 27 areas contains each of the digits 1-9 exactly
once. -/
theorem c1_amended_solved_grids_valid :
    ∀ (grid : List (List Seed)) (randomly tl : Bool) (tu : Nat → Bool)
      (rng : List Nat) (fuel : Nat) (s1 : SudokuState),
      gridShapeB grid = true →
      consistent (generate_cells grid) →
      solve randomly tl tu rng fuel (initState grid) = .finished s1 →
      solved s1 = true →
      validAreas s1.cells = true := by
  intro grid randomly tl tu rng fuel s1 hshape hcons hrun hsolved
  have hInv : Inv (generate_cells grid) s1 :=
    inv_solve (inv_init grid) hrun
  have hfilled := solved_filled grid s1 hInv hsolved
  have hstrip : stripCoords s1.cells = stdCoords := by
    rw [hInv.cellsEq, stripCoords_applyHist, generate_cells_coords grid hshape]
  have hcF : consistent s1.cells := by
    rw [hInv.cellsEq]
    exact applyHist_consistent _ hcons s1.history hInv.histMem
      (fun pre e post h => (hInv.avail pre e post h).1)
  exact validAreas_of_full_consistent s1.cells hstrip hcF hfilled

theorem c1_amended_solved_grids_valid_witness :
    gridShapeB oneHoleGrid = true ∧
    validAreas (outState (solve false false noTime [] 3
      (initState oneHoleGrid))).cells = true :=
  ⟨by decide,
   c1_amended_solved_grids_valid oneHoleGrid false false noTime [] 3
     (outState (solve false false noTime [] 3 (initState oneHoleGrid)))
     (by decide) (by decide) rfl (by decide)⟩


end SudokuManager
